import Mathlib

/-!
Shallow embedding of the write side (`Producer`) of the tensorpipe shared-memory
ring buffer, from `src/tensorpipe/util/ringbuffer/producer.h`.

The `RingBufferHeader` collaborator (counters, capacity constants and the
write-lock) is declared in `ringbuffer.h`, which is not part of the given
sources; its operations are modelled from the spec (section 6, "Required
collaborator contract — Header").

Machine integers are modelled as `Nat` with explicit reduction modulo the
type width at every point where the C++ code computes in a fixed-width type:
`head`/`tail` are `uint64_t`, `avail` is `size_t` (64-bit), `tx_size_` is
`unsigned` (32-bit).  The data pool is a list of bytes and pointers into it
are byte offsets from `data_`.
-/

namespace Tensorpipe

/-- Modulus of `uint64_t` / `size_t` arithmetic (2 ^ 64). -/
def U64 : Nat := 18446744073709551616

/-- Modulus of `unsigned` arithmetic (2 ^ 32). -/
def U32 : Nat := 4294967296

/-- errno value `EBUSY` (device or resource busy). -/
def EBUSY : Int := 16

/-- errno value `EAGAIN` (try again). -/
def EAGAIN : Int := 11

/-- errno value `EINVAL` (invalid argument). -/
def EINVAL : Int := 22

/-- errno value `ENOSPC` (no space left on device). -/
def ENOSPC : Int := 28

/-- Modelled from the spec: the shared `Header` control block of
`ringbuffer.h` (not among the given sources).  It owns the two monotonically
increasing 64-bit byte counters `head` and `tail`, the capacity constant
`kDataPoolByteSize` (a power of two), and the single-slot mutual-exclusion
flag gating write transactions (`writeLockHeld`). -/
structure RingBufferHeader where
  kDataPoolByteSize : Nat
  head : Nat
  tail : Nat
  writeLockHeld : Bool
deriving Repr, DecidableEq

/-- The wraparound bitmask derived from the capacity: `kDataPoolByteSize - 1`. -/
def RingBufferHeader.kDataModMask (h : RingBufferHeader) : Nat :=
  h.kDataPoolByteSize - 1

/-- Modelled from the spec: `readHead()` returns the current `head` counter. -/
def RingBufferHeader.readHead (h : RingBufferHeader) : Nat := h.head

/-- Modelled from the spec: `readTail()` returns the current `tail` counter. -/
def RingBufferHeader.readTail (h : RingBufferHeader) : Nat := h.tail

/-- Modelled from the spec: `beginWriteTransaction()` attempts to acquire the
single system-wide write-lock without blocking.  Matching the use site
`if (header_.beginWriteTransaction()) return -EAGAIN;`, the returned flag is
`true` exactly when acquisition FAILS (the lock was already held). -/
def RingBufferHeader.beginWriteTransaction (h : RingBufferHeader) :
    Bool × RingBufferHeader :=
  if h.writeLockHeld then (true, h)
  else (false, { h with writeLockHeld := true })

/-- Modelled from the spec: `endWriteTransaction()` releases the write-lock. -/
def RingBufferHeader.endWriteTransaction (h : RingBufferHeader) :
    RingBufferHeader :=
  { h with writeLockHeld := false }

/-- Modelled from the spec: `incHead(n)` atomically advances `head` by `n`
(`head` is a `uint64_t`, hence the reduction modulo 2 ^ 64). -/
def RingBufferHeader.incHead (h : RingBufferHeader) (n : Nat) :
    RingBufferHeader :=
  { h with head := (h.head + n) % U64 }

/-- `Producer::Buffer`: a contiguous area of the ringbuffer.  The C++ `ptr`
field (a pointer into the data pool) is modelled as the byte offset `off`
from `data_`. -/
structure Buffer where
  off : Nat
  len : Nat
deriving Repr, DecidableEq

/-- The `Producer` together with the state it references: the shared header,
the data pool contents (`data_`, a byte region of `kDataPoolByteSize` bytes),
and the private transaction state `tx_size_ : unsigned` and `inTx_ : bool`. -/
structure Producer where
  header : RingBufferHeader
  data : List Nat
  tx_size : Nat
  inTx : Bool
deriving Repr, DecidableEq

/-- The `uint64_t` difference `head - tail` (both counters reduced mod 2^64;
the formula is C-accurate whenever `head < U64` and `tail < U64`). -/
def usedOf (head tail : Nat) : Nat := (head + U64 - tail) % U64

/-- The `size_t` computation
`avail = header_.kDataPoolByteSize - (head - tail) - tx_size_`
from `accessContiguousInTx` (C-accurate whenever `C < U64` and `tx < U64`). -/
def availOf (C head tail tx : Nat) : Nat :=
  (C + U64 - usedOf head tail + U64 - tx) % U64

/-- `Producer::startTx()`. -/
def Producer.startTx (p : Producer) : Int × Producer :=
  if p.inTx then (-EBUSY, p)
  else if (p.header.beginWriteTransaction).1 then (-EAGAIN, p)
  else (0, { p with header := (p.header.beginWriteTransaction).2, inTx := true })

/-- `Producer::commitTx()`. -/
def Producer.commitTx (p : Producer) : Int × Producer :=
  if !p.inTx then (-EINVAL, p)
  else (0, { p with
    header := (p.header.incHead p.tx_size).endWriteTransaction,
    tx_size := 0,
    inTx := false })

/-- `Producer::cancelTx()`. -/
def Producer.cancelTx (p : Producer) : Int × Producer :=
  if !p.inTx then (-EINVAL, p)
  else (0, { p with
    header := p.header.endWriteTransaction,
    tx_size := 0,
    inTx := false })

/-- `Producer::accessContiguousInTx<ap>(size)`, with `ap` the C++ template
parameter `allowPartial`.  Returns the `ssize_t` result (negative error or
number of valid spans), the valid spans in order, and the updated state.
`start` and `end` are computed exactly as in the source:
`(head + tx_size_) & kDataModMask` in `uint64_t`, then masked; the
accumulation `tx_size_ += size` is `unsigned` arithmetic. -/
def Producer.accessContiguousInTx (p : Producer) (ap : Bool) (size : Nat) :
    Int × List Buffer × Producer :=
  if !p.inTx then (-EINVAL, ([], p))
  else if size = 0 then (0, ([], p))
  else
    let head := p.header.readHead
    let tail := p.header.readTail
    let avail := availOf p.header.kDataPoolByteSize head tail p.tx_size
    if ap = false ∧ avail < size then (-ENOSPC, ([], p))
    else if avail = 0 then (0, ([], p))
    else
      let sz := min size avail
      let start := (head + p.tx_size) % U64 &&& p.header.kDataModMask
      let endPos := (start + sz) &&& p.header.kDataModMask
      let p1 : Producer := { p with tx_size := (p.tx_size + sz) % U32 }
      if endPos ≤ start ∧ 0 < endPos then
        (2, ([⟨start, p.header.kDataPoolByteSize - start⟩, ⟨0, endPos⟩], p1))
      else
        (1, ([⟨start, sz⟩], p1))

/-- `std::memcpy(pool + off, src, src.length)`: overwrite `src.length` bytes
of `pool` starting at offset `off` with the bytes of `src`. -/
def memcpyAt (pool : List Nat) (off : Nat) (src : List Nat) : List Nat :=
  pool.take off ++ src ++ pool.drop (off + src.length)

/-- `Producer::writeInTx<ap>(buffer, size)`: acquires spans via
`accessContiguousInTx<ap>` and copies from `buffer` into them, split across
at most two spans; returns the number of bytes copied or the negative error.
The source dispatches on the span count (0, 1 or 2), which matches the
length of the span list returned by `accessContiguousInTx`. -/
def Producer.writeInTx (p : Producer) (ap : Bool) (buffer : List Nat)
    (size : Nat) : Int × Producer :=
  match p.accessContiguousInTx ap size with
  | (numBuffers, buffers, p1) =>
    if numBuffers < 0 then (numBuffers, p1)
    else
      match buffers with
      | [] => (0, p1)
      | [b0] =>
        ((b0.len : Int),
         { p1 with data := memcpyAt p1.data b0.off (buffer.take b0.len) })
      | [b0, b1] =>
        let d1 := memcpyAt p1.data b0.off (buffer.take b0.len)
        let d2 := memcpyAt d1 b1.off ((buffer.drop b0.len).take b1.len)
        (((b0.len + b1.len : Nat) : Int), { p1 with data := d2 })
      | _ => (-EINVAL, p1)

/-- `Producer::write(buffer, size)`: `startTx` then
`writeInTx<allowPartial=false>` then `commitTx`; cancels on a negative
result from `writeInTx` and returns `size` on success. -/
def Producer.write (p : Producer) (buffer : List Nat) (size : Nat) :
    Int × Producer :=
  match p.startTx with
  | (ret, p1) =>
    if ret < 0 then (ret, p1)
    else
      match p1.writeInTx false buffer size with
      | (ret2, p2) =>
        if ret2 < 0 then
          match p2.cancelTx with
          | (_, p3) => (ret2, p3)
        else
          match p2.commitTx with
          | (_, p4) => ((size : Int), p4)

/-- Well-formedness of a producer state: the representation bounds imposed
by the C++ types, the power-of-two capacity, the documented counter
invariant `head - tail ≤ C` strengthened by the open-transaction reservation
`(head - tail) + tx_size ≤ C`, and `tx_size = 0` whenever no transaction is
open. -/
def Producer.Inv (p : Producer) : Prop :=
  p.header.head < U64 ∧
  p.header.tail < U64 ∧
  (∃ k, p.header.kDataPoolByteSize = 2 ^ k) ∧
  p.header.kDataPoolByteSize < U32 ∧
  usedOf p.header.head p.header.tail + p.tx_size ≤ p.header.kDataPoolByteSize ∧
  (p.inTx = false → p.tx_size = 0)


lemma avail_eq (C head tail tx : Nat) (h1 : head < U64) (h2 : tail < U64)
    (h3 : usedOf head tail + tx ≤ C) (h4 : C < U32) :
    availOf C head tail tx = C - usedOf head tail - tx := by
  unfold availOf usedOf at *
  unfold U64 U32 at *
  omega

lemma used_incHead (head tail n C : Nat) (h1 : head < U64) (h2 : tail < U64)
    (h3 : usedOf head tail + n ≤ C) (h4 : C < U32) :
    usedOf ((head + n) % U64) tail = usedOf head tail + n := by
  unfold usedOf at *
  unfold U64 U32 at *
  omega

lemma mask_mod (C x : Nat) (h : ∃ k, C = 2 ^ k) (hlt : C < U32) :
    x % U64 &&& (C - 1) = x % C := by
  obtain ⟨k, rfl⟩ := h
  rw [Nat.and_pow_two_sub_one_eq_mod]
  have hk : k ≤ 64 := by
    by_contra hc
    push_neg at hc
    have : (2:Nat) ^ 65 ≤ 2 ^ k := Nat.pow_le_pow_right (by norm_num) hc
    unfold U32 at hlt
    omega
  have hdvd : (2:Nat) ^ k ∣ U64 := by
    have hu : U64 = 2 ^ 64 := by unfold U64; norm_num
    rw [hu]
    exact pow_dvd_pow 2 hk
  rw [Nat.mod_mod_of_dvd _ hdvd]

lemma wrap_sum (C start sz : Nat) (hstart : start < C) (hsz : 0 < sz)
    (hszC : sz ≤ C) (hwrap : (start + sz) % C ≤ start ∧ 0 < (start + sz) % C) :
    C - start + (start + sz) % C = sz ∧ C ≤ start + sz := by
  rcases Nat.lt_or_ge (start + sz) C with h | h
  · rw [Nat.mod_eq_of_lt h] at hwrap
    omega
  · have hm : (start + sz) % C = start + sz - C := by
      rw [Nat.mod_eq_sub_mod h, Nat.mod_eq_of_lt (by omega)]
    omega

lemma inv_startTx (p : Producer) (h : p.Inv) : (p.startTx).2.Inv := by
  obtain ⟨hh, ht, hpow, hC, hused, htx0⟩ := h
  unfold Producer.startTx RingBufferHeader.beginWriteTransaction
  split_ifs <;> dsimp only <;>
    exact ⟨hh, ht, hpow, hC, hused, by simp_all⟩

lemma inv_commitTx (p : Producer) (h : p.Inv) : (p.commitTx).2.Inv := by
  obtain ⟨hh, ht, hpow, hC, hused, htx0⟩ := h
  unfold Producer.commitTx RingBufferHeader.incHead
    RingBufferHeader.endWriteTransaction
  split_ifs with h1
  · exact ⟨hh, ht, hpow, hC, hused, htx0⟩
  · have hm : usedOf ((p.header.head + p.tx_size) % U64) p.header.tail
        = usedOf p.header.head p.header.tail + p.tx_size :=
      used_incHead _ _ _ _ hh ht hused hC
    refine ⟨Nat.mod_lt _ (by unfold U64; omega), ht, hpow, hC, ?_,
      fun _ => rfl⟩
    show usedOf ((p.header.head + p.tx_size) % U64) p.header.tail + 0
      ≤ p.header.kDataPoolByteSize
    rw [hm]
    omega

lemma inv_cancelTx (p : Producer) (h : p.Inv) : (p.cancelTx).2.Inv := by
  obtain ⟨hh, ht, hpow, hC, hused, htx0⟩ := h
  unfold Producer.cancelTx RingBufferHeader.endWriteTransaction
  split_ifs with h1
  · exact ⟨hh, ht, hpow, hC, hused, htx0⟩
  · refine ⟨hh, ht, hpow, hC, ?_, fun _ => rfl⟩
    show usedOf p.header.head p.header.tail + 0 ≤ p.header.kDataPoolByteSize
    omega

lemma inv_access (p : Producer) (ap : Bool) (size : Nat) (h : p.Inv) :
    (p.accessContiguousInTx ap size).2.2.Inv := by
  obtain ⟨hh, ht, hpow, hC, hused, htx0⟩ := h
  unfold Producer.accessContiguousInTx
  dsimp only [RingBufferHeader.readHead, RingBufferHeader.readTail]
  have hav : availOf p.header.kDataPoolByteSize p.header.head p.header.tail
      p.tx_size = p.header.kDataPoolByteSize
        - usedOf p.header.head p.header.tail - p.tx_size :=
    avail_eq _ _ _ _ hh ht hused hC
  have hsz := Nat.min_le_right size (availOf p.header.kDataPoolByteSize
    p.header.head p.header.tail p.tx_size)
  have htxu : (p.tx_size + min size (availOf p.header.kDataPoolByteSize
      p.header.head p.header.tail p.tx_size)) % U32
      = p.tx_size + min size (availOf p.header.kDataPoolByteSize
      p.header.head p.header.tail p.tx_size) := by
    apply Nat.mod_eq_of_lt
    omega
  split_ifs with h1 h2 h3 h4 h5
  · exact ⟨hh, ht, hpow, hC, hused, htx0⟩
  · exact ⟨hh, ht, hpow, hC, hused, htx0⟩
  · exact ⟨hh, ht, hpow, hC, hused, htx0⟩
  · exact ⟨hh, ht, hpow, hC, hused, htx0⟩
  all_goals {
    have hin : p.inTx = true := by
      revert h1
      cases p.inTx <;> simp
    refine ⟨hh, ht, hpow, hC, ?_, by rw [hin]; intro hq; cases hq⟩
    show usedOf p.header.head p.header.tail
        + (p.tx_size + min size (availOf p.header.kDataPoolByteSize
          p.header.head p.header.tail p.tx_size)) % U32
      ≤ p.header.kDataPoolByteSize
    rw [htxu]
    omega }

lemma inv_writeInTx (p : Producer) (ap : Bool) (buffer : List Nat)
    (size : Nat) (h : p.Inv) : (p.writeInTx ap buffer size).2.Inv := by
  have ha := inv_access p ap size h
  unfold Producer.writeInTx
  rcases hacc : p.accessContiguousInTx ap size with ⟨r, bufs, p1⟩
  rw [hacc] at ha
  dsimp only at ha ⊢
  split_ifs
  · exact ha
  · rcases bufs with _ | ⟨b0, _ | ⟨b1, _ | _⟩⟩ <;> exact ha

lemma inv_write (p : Producer) (buffer : List Nat) (size : Nat) (h : p.Inv) :
    (p.write buffer size).2.Inv := by
  have h1 := inv_startTx p h
  unfold Producer.write
  rcases hs : p.startTx with ⟨r1, p1⟩
  rw [hs] at h1
  dsimp at h1 ⊢
  have h2 := inv_writeInTx p1 false buffer size h1
  rcases hw : p1.writeInTx false buffer size with ⟨r2, p2⟩
  rw [hw] at h2
  dsimp at h2 ⊢
  split_ifs
  · exact h1
  · exact inv_cancelTx p2 h2
  · exact inv_commitTx p2 h2

lemma access_succ (p : Producer) (ap : Bool) (size : Nat)
    (hInv : p.Inv) (htx : p.inTx = true) (hsz : 0 < size)
    (hpos : 0 < p.header.kDataPoolByteSize
      - usedOf p.header.head p.header.tail - p.tx_size)
    (hgo : ap = true ∨ size ≤ p.header.kDataPoolByteSize
      - usedOf p.header.head p.header.tail - p.tx_size) :
    p.accessContiguousInTx ap size =
      (let C := p.header.kDataPoolByteSize
       let avail := C - usedOf p.header.head p.header.tail - p.tx_size
       let sz := min size avail
       let start := (p.header.head + p.tx_size) % C
       let endPos := (start + sz) % C
       let p1 : Producer := { p with tx_size := p.tx_size + sz }
       if endPos ≤ start ∧ 0 < endPos then
         (2, ([⟨start, C - start⟩, ⟨0, endPos⟩], p1))
       else (1, ([⟨start, sz⟩], p1))) := by
  obtain ⟨hh, ht, hpow, hC32, hinv, htx0⟩ := hInv
  have hav : availOf p.header.kDataPoolByteSize p.header.head p.header.tail
      p.tx_size = p.header.kDataPoolByteSize
        - usedOf p.header.head p.header.tail - p.tx_size :=
    avail_eq _ _ _ _ hh ht (by omega) hC32
  unfold Producer.accessContiguousInTx
  simp only [htx, Bool.not_true, Bool.false_eq_true, if_false,
    RingBufferHeader.readHead, RingBufferHeader.readTail, hav]
  rw [if_neg (by omega)]
  rw [if_neg (by
    rintro ⟨hap, hlt⟩
    rcases hgo with h | h
    · rw [h] at hap; cases hap
    · omega)]
  rw [if_neg (by omega)]
  have hmask1 : (p.header.head + p.tx_size) % U64 &&& p.header.kDataModMask
      = (p.header.head + p.tx_size) % p.header.kDataPoolByteSize := by
    unfold RingBufferHeader.kDataModMask
    exact mask_mod _ _ hpow hC32
  have hmask2 : ∀ x : Nat, x &&& p.header.kDataModMask
      = x % p.header.kDataPoolByteSize := by
    intro x
    obtain ⟨k, hk⟩ := hpow
    unfold RingBufferHeader.kDataModMask
    rw [hk, Nat.and_pow_two_sub_one_eq_mod]
  have htxu : (p.tx_size + min size (p.header.kDataPoolByteSize
      - usedOf p.header.head p.header.tail - p.tx_size)) % U32
      = p.tx_size + min size (p.header.kDataPoolByteSize
      - usedOf p.header.head p.header.tail - p.tx_size) := by
    apply Nat.mod_eq_of_lt
    have := Nat.min_le_right size (p.header.kDataPoolByteSize
      - usedOf p.header.head p.header.tail - p.tx_size)
    omega
  simp only [hmask1, hmask2, htxu]

lemma access_header (p : Producer) (ap : Bool) (size : Nat) :
    (p.accessContiguousInTx ap size).2.2.header = p.header
      ∧ (p.accessContiguousInTx ap size).2.2.data = p.data
      ∧ (p.accessContiguousInTx ap size).2.2.inTx = p.inTx := by
  unfold Producer.accessContiguousInTx
  dsimp only [RingBufferHeader.readHead, RingBufferHeader.readTail]
  split_ifs <;> exact ⟨rfl, rfl, rfl⟩

lemma writeInTx_header (p : Producer) (ap : Bool) (buffer : List Nat)
    (size : Nat) :
    (p.writeInTx ap buffer size).2.header = p.header
      ∧ (p.writeInTx ap buffer size).2.inTx = p.inTx := by
  have ha := access_header p ap size
  unfold Producer.writeInTx
  rcases hacc : p.accessContiguousInTx ap size with ⟨r, bufs, p1⟩
  rw [hacc] at ha
  dsimp only at ha ⊢
  split_ifs
  · exact ⟨ha.1, ha.2.2⟩
  · rcases bufs with _ | ⟨b0, _ | ⟨b1, _ | _⟩⟩ <;>
      exact ⟨ha.1, ha.2.2⟩

lemma commitTx_inTx (p : Producer) : (p.commitTx).2.inTx = false := by
  unfold Producer.commitTx
  split_ifs with h
  · revert h
    cases p.inTx <;> simp
  · rfl

lemma access_nospc (p : Producer) (size : Nat) (h : p.Inv)
    (htx : p.inTx = true)
    (hs : p.header.kDataPoolByteSize
        - usedOf p.header.head p.header.tail - p.tx_size < size) :
    p.accessContiguousInTx false size = (-ENOSPC, ([], p)) := by
  obtain ⟨hh, ht, hpow, hC32, hinv, htx0⟩ := h
  have hav : availOf p.header.kDataPoolByteSize p.header.head p.header.tail
      p.tx_size = p.header.kDataPoolByteSize
        - usedOf p.header.head p.header.tail - p.tx_size :=
    avail_eq _ _ _ _ hh ht (by omega) hC32
  unfold Producer.accessContiguousInTx
  simp only [htx, Bool.not_true, Bool.false_eq_true, if_false,
    RingBufferHeader.readHead, RingBufferHeader.readTail, hav]
  rw [if_neg (by omega)]
  rw [if_pos ⟨by trivial, hs⟩]

lemma writeInTx_nospc (p : Producer) (buffer : List Nat) (size : Nat)
    (h : p.Inv) (htx : p.inTx = true)
    (hs : p.header.kDataPoolByteSize
        - usedOf p.header.head p.header.tail - p.tx_size < size) :
    p.writeInTx false buffer size = (-ENOSPC, p) := by
  unfold Producer.writeInTx
  rw [access_nospc p size h htx hs]
  dsimp only
  rw [if_pos (by norm_num [ENOSPC])]

lemma writeInTx_succ (p : Producer) (ap : Bool) (buffer : List Nat)
    (size : Nat) (hInv : p.Inv) (htx : p.inTx = true) (hsz : 0 < size)
    (hpos : 0 < p.header.kDataPoolByteSize
      - usedOf p.header.head p.header.tail - p.tx_size)
    (hgo : ap = true ∨ size ≤ p.header.kDataPoolByteSize
      - usedOf p.header.head p.header.tail - p.tx_size) :
    (p.writeInTx ap buffer size).1
      = ((min size (p.header.kDataPoolByteSize
          - usedOf p.header.head p.header.tail - p.tx_size) : Nat) : Int)
      ∧ (p.writeInTx ap buffer size).2.tx_size
        = p.tx_size + min size (p.header.kDataPoolByteSize
            - usedOf p.header.head p.header.tail - p.tx_size)
      ∧ (p.writeInTx ap buffer size).2.header = p.header
      ∧ (p.writeInTx ap buffer size).2.inTx = true := by
  obtain ⟨hh, ht, hpow, hC32, hinv, htx0⟩ := hInv
  have hacc := access_succ p ap size
    ⟨hh, ht, hpow, hC32, hinv, htx0⟩ htx hsz hpos hgo
  have hCpos : 0 < p.header.kDataPoolByteSize := by
    obtain ⟨k, hk⟩ := hpow
    rw [hk]
    exact Nat.pos_pow_of_pos k (by norm_num)
  dsimp only at hacc
  unfold Producer.writeInTx
  by_cases hw : ((p.header.head + p.tx_size) % p.header.kDataPoolByteSize
        + min size (p.header.kDataPoolByteSize
          - usedOf p.header.head p.header.tail - p.tx_size))
        % p.header.kDataPoolByteSize
      ≤ (p.header.head + p.tx_size) % p.header.kDataPoolByteSize
    ∧ 0 < ((p.header.head + p.tx_size) % p.header.kDataPoolByteSize
        + min size (p.header.kDataPoolByteSize
          - usedOf p.header.head p.header.tail - p.tx_size))
        % p.header.kDataPoolByteSize
  · rw [if_pos hw] at hacc
    rw [hacc]
    dsimp only
    rw [if_neg (by norm_num)]
    dsimp
    have hsum := wrap_sum p.header.kDataPoolByteSize
      ((p.header.head + p.tx_size) % p.header.kDataPoolByteSize)
      (min size (p.header.kDataPoolByteSize
        - usedOf p.header.head p.header.tail - p.tx_size))
      (Nat.mod_lt _ hCpos) (by omega) (by omega) hw
    refine ⟨?_, rfl, rfl, htx⟩
    exact_mod_cast hsum.1
  · rw [if_neg hw] at hacc
    rw [hacc]
    dsimp only
    rw [if_neg (by norm_num)]
    dsimp
    exact ⟨rfl, rfl, rfl, htx⟩

/-- C6: the claim as stated is false on the code.  With `head = 6`,
`tail = 0`, `C = 8` the available space is `8 - 6 - 0 = 2`, so requesting 4
bytes inside an open transaction returns `InsufficientSpace` in the strict
case and a single span `(offset 6, length 2)` in the partial case — not the
claimed two spans `(6,2),(0,2)` in either case. -/
theorem wrap_example_C6_counterexample :
    ((Producer.accessContiguousInTx
        ⟨⟨8, 6, 0, true⟩, List.replicate 8 0, 0, true⟩ false 4).1
      = -ENOSPC) ∧
    ((Producer.accessContiguousInTx
        ⟨⟨8, 6, 0, true⟩, List.replicate 8 0, 0, true⟩ true 4).2.1
      = [⟨6, 2⟩]) ∧
    ¬ ((Producer.accessContiguousInTx
        ⟨⟨8, 6, 0, true⟩, List.replicate 8 0, 0, true⟩ true 4).2.1
      = [⟨6, 2⟩, ⟨0, 2⟩]) ∧
    ¬ ((Producer.accessContiguousInTx
        ⟨⟨8, 6, 0, true⟩, List.replicate 8 0, 0, true⟩ false 4).2.1
      = [⟨6, 2⟩, ⟨0, 2⟩]) := by
  decide

/-- C6 (amended): with `head = 6`, `tail = 2`, `C = 8` (so that at least 4
bytes are available), requesting 4 bytes via `accessContiguousInTx` inside
an open transaction yields two spans `(offset 6, length 2)` then
`(offset 0, length 2)`, for both values of `allowPartial`. -/
theorem wrap_example_C6_amended :
    (Producer.accessContiguousInTx
        ⟨⟨8, 6, 2, true⟩, List.replicate 8 0, 0, true⟩ false 4).2.1
      = [⟨6, 2⟩, ⟨0, 2⟩] ∧
    (Producer.accessContiguousInTx
        ⟨⟨8, 6, 2, true⟩, List.replicate 8 0, 0, true⟩ true 4).2.1
      = [⟨6, 2⟩, ⟨0, 2⟩] ∧
    (Producer.accessContiguousInTx
        ⟨⟨8, 6, 2, true⟩, List.replicate 8 0, 0, true⟩ true 4).1 = 2 := by
  decide

/-- C8: end-to-end on a fresh ring buffer with `C = 8`: a `write` of 3 bytes
returns 3 leaving `head = 3`, `tail = 0`; a second `write` of 2 bytes
returns 2 leaving `head = 5`; after `startTx`,
`accessContiguousInTx(5)` with `allowPartial = false` returns
`InsufficientSpace` (leaving the state unchanged), the same request with
`allowPartial = true` returns one span of length 3 at offset 5, and
`commitTx` then advances `head` to 8. -/
theorem e2e_scenario_C8 :
    let p0 : Producer := ⟨⟨8, 0, 0, false⟩, List.replicate 8 0, 0, false⟩
    let w1 := p0.write [65, 66, 67] 3
    let w2 := w1.2.write [68, 69] 2
    let t := (w2.2.startTx).2
    let strict := t.accessContiguousInTx false 5
    let part := t.accessContiguousInTx true 5
    let c := part.2.2.commitTx
    w1.1 = 3 ∧ w1.2.header.head = 3 ∧ w1.2.header.tail = 0 ∧
    w2.1 = 2 ∧ w2.2.header.head = 5 ∧
    (w2.2.startTx).1 = 0 ∧
    strict.1 = -ENOSPC ∧ strict.2.2 = t ∧
    part.1 = 1 ∧ part.2.1 = [⟨5, 3⟩] ∧
    c.1 = 0 ∧ c.2.header.head = 8 := by
  decide

/-- C10: for fixed `head`, capacity `C` and `txSize`, the available-space
value computed by `accessContiguousInTx` is monotonically non-decreasing in
`tail` (under the counter invariant at the older tail), so a stale (smaller)
`tail` value never yields a larger `avail` than the current one: a
concurrently advancing consumer can only make the writer under-estimate
space. -/
theorem avail_monotone_C10 (C head tx tail1 tail2 : Nat)
    (h12 : tail1 ≤ tail2) (h2h : tail2 ≤ head) (hcap : head ≤ tail1 + C)
    (hh : head < U64) (hC : C < U32)
    (htx : usedOf head tail1 + tx ≤ C) :
    availOf C head tail1 tx ≤ availOf C head tail2 tx := by
  unfold availOf usedOf at *
  unfold U64 U32 at *
  omega

/-- C10 witness: `head = 6`, `C = 8`, `tx = 2`, stale `tail = 2` versus
current `tail = 4`: the stale avail (2) does not exceed the current one (4). -/
theorem avail_monotone_C10_witness :
    availOf 8 6 2 2 ≤ availOf 8 6 4 2 :=
  avail_monotone_C10 8 6 2 2 4 (by decide) (by decide) (by decide)
    (by decide) (by decide) (by decide)

/-- C4: inside an open transaction, a strict (`allowPartial = false`) request
larger than the available space `C - (head - tail) - txSize` returns
`InsufficientSpace` and leaves the whole state unchanged: `txSize` keeps its
value, the transaction stays open and the write-lock stays held. -/
theorem access_insufficient_space_C4 (p : Producer) (size : Nat) (h : p.Inv)
    (htx : p.inTx = true)
    (hs : p.header.kDataPoolByteSize - usedOf p.header.head p.header.tail
        - p.tx_size < size) :
    p.accessContiguousInTx false size = (-ENOSPC, ([], p)) ∧
    (p.accessContiguousInTx false size).2.2.tx_size = p.tx_size ∧
    (p.accessContiguousInTx false size).2.2.inTx = true ∧
    (p.accessContiguousInTx false size).2.2.header.writeLockHeld
      = p.header.writeLockHeld := by
  have hn := access_nospc p size h htx hs
  rw [hn]
  exact ⟨rfl, rfl, htx, rfl⟩

/-- C4 witness: `C = 8`, `head = 3`, `tail = 1`, `txSize = 2` (avail 4),
requesting 5 strict bytes fails with `InsufficientSpace` and changes
nothing. -/
theorem access_insufficient_space_C4_witness :
    Producer.accessContiguousInTx
        ⟨⟨8, 3, 1, true⟩, List.replicate 8 0, 2, true⟩ false 5
      = (-ENOSPC, ([], ⟨⟨8, 3, 1, true⟩, List.replicate 8 0, 2, true⟩)) :=
  (access_insufficient_space_C4
    ⟨⟨8, 3, 1, true⟩, List.replicate 8 0, 2, true⟩ 5
    ⟨by decide, by decide, ⟨3, rfl⟩, by decide, by decide,
      fun hq => absurd hq (by decide)⟩
    rfl (by decide)).1

/-- C3: `startTx` on a producer whose transaction is already open returns
`-EBUSY` with no state change; `startTx` while the header write-lock is held
by another instance returns `-EAGAIN` with no state change and without
acquiring the lock; otherwise it acquires the lock, marks the instance open,
and `txSize` is 0 (the stated hypothesis is the idle-state invariant
`inTx = false → txSize = 0`, maintained by every operation). -/
theorem startTx_spec_C3 (p : Producer)
    (h0 : p.inTx = false → p.tx_size = 0) :
    (p.inTx = true → p.startTx = (-EBUSY, p)) ∧
    (p.inTx = false → p.header.writeLockHeld = true →
      p.startTx = (-EAGAIN, p)) ∧
    (p.inTx = false → p.header.writeLockHeld = false →
      p.startTx = (0, { p with
          header := { p.header with writeLockHeld := true }, inTx := true })
        ∧ (p.startTx).2.tx_size = 0
        ∧ (p.startTx).2.inTx = true
        ∧ (p.startTx).2.header.writeLockHeld = true) := by
  obtain ⟨⟨C, hd, tl, lk⟩, dat, tx, itx⟩ := p
  refine ⟨fun h1 => ?_, fun h1 h2 => ?_, fun h1 h2 => ?_⟩
  · subst h1
    rfl
  · subst h1
    subst h2
    rfl
  · subst h1
    subst h2
    have h00 : tx = 0 := h0 rfl
    subst h00
    exact ⟨rfl, rfl, rfl, rfl⟩

/-- C3 witness: on an idle producer with the lock free, `startTx` succeeds
and acquires the lock; with the lock held by another instance it returns
`-EAGAIN`. -/
theorem startTx_spec_C3_witness :
    Producer.startTx ⟨⟨8, 3, 1, false⟩, List.replicate 8 0, 0, false⟩
      = (0, ⟨⟨8, 3, 1, true⟩, List.replicate 8 0, 0, true⟩) :=
  ((startTx_spec_C3 ⟨⟨8, 3, 1, false⟩, List.replicate 8 0, 0, false⟩
    (fun _ => rfl)).2.2 rfl rfl).1

/-- C2: `head` only changes at a successful `commitTx`, and then by exactly
the transaction's accumulated `txSize` (modulo the `uint64_t` width, which
is exact whenever the counter does not overflow); a successful `cancelTx`
resets `txSize` to 0 and releases the write-lock but never advances `head`;
`startTx`, `accessContiguousInTx` and `writeInTx` never change `head`; and
`commitTx`/`cancelTx` on a closed transaction change nothing. -/
theorem head_only_at_commit_C2 (p : Producer) :
    (p.startTx).2.header.head = p.header.head ∧
    (∀ ap size, (p.accessContiguousInTx ap size).2.2.header.head
      = p.header.head) ∧
    (∀ ap buffer size, (p.writeInTx ap buffer size).2.header.head
      = p.header.head) ∧
    (p.inTx = true →
      (p.cancelTx).1 = 0 ∧
      (p.cancelTx).2.header.head = p.header.head ∧
      (p.cancelTx).2.tx_size = 0 ∧
      (p.cancelTx).2.header.writeLockHeld = false ∧
      (p.commitTx).1 = 0 ∧
      (p.commitTx).2.header.head = (p.header.head + p.tx_size) % U64) ∧
    (p.inTx = true → p.header.head + p.tx_size < U64 →
      (p.commitTx).2.header.head = p.header.head + p.tx_size) ∧
    (p.inTx = false → (p.commitTx).2 = p ∧ (p.cancelTx).2 = p) := by
  have hcan : p.inTx = true → p.cancelTx = (0, { p with
      header := p.header.endWriteTransaction,
      tx_size := 0, inTx := false }) := by
    intro htx
    unfold Producer.cancelTx
    rw [if_neg (by simp [htx])]
  have hcom : p.inTx = true → p.commitTx = (0, { p with
      header := (p.header.incHead p.tx_size).endWriteTransaction,
      tx_size := 0, inTx := false }) := by
    intro htx
    unfold Producer.commitTx
    rw [if_neg (by simp [htx])]
  refine ⟨?_, ?_, ?_, fun htx => ?_, fun htx hlt => ?_, fun hntx => ?_⟩
  · unfold Producer.startTx RingBufferHeader.beginWriteTransaction
    split_ifs <;> rfl
  · intro ap size
    exact congrArg RingBufferHeader.head (access_header p ap size).1
  · intro ap buffer size
    exact congrArg RingBufferHeader.head (writeInTx_header p ap buffer size).1
  · rw [hcan htx, hcom htx]
    exact ⟨rfl, rfl, rfl, rfl, rfl, rfl⟩
  · rw [hcom htx]
    exact Nat.mod_eq_of_lt hlt
  · constructor
    · unfold Producer.commitTx
      rw [if_pos (by simp [hntx])]
    · unfold Producer.cancelTx
      rw [if_pos (by simp [hntx])]

/-- C2 witness: committing an open transaction with `head = 3`, `txSize = 2`
advances `head` to 5; cancelling instead leaves `head` at 3, zeroes `txSize`
and releases the lock. -/
theorem head_only_at_commit_C2_witness :
    ((Producer.commitTx
        ⟨⟨8, 3, 1, true⟩, List.replicate 8 0, 2, true⟩).2.header.head = 5) ∧
    ((Producer.cancelTx
        ⟨⟨8, 3, 1, true⟩, List.replicate 8 0, 2, true⟩).2.header.head = 3) ∧
    ((Producer.cancelTx
        ⟨⟨8, 3, 1, true⟩, List.replicate 8 0, 2, true⟩).2.tx_size = 0) ∧
    ((Producer.cancelTx
        ⟨⟨8, 3, 1, true⟩, List.replicate 8 0, 2, true⟩).2.header.writeLockHeld
      = false) :=
  ⟨(head_only_at_commit_C2
      ⟨⟨8, 3, 1, true⟩, List.replicate 8 0, 2, true⟩).2.2.2.2.1 rfl
        (by decide),
   ((head_only_at_commit_C2
      ⟨⟨8, 3, 1, true⟩, List.replicate 8 0, 2, true⟩).2.2.2.1 rfl).2.1,
   ((head_only_at_commit_C2
      ⟨⟨8, 3, 1, true⟩, List.replicate 8 0, 2, true⟩).2.2.2.1 rfl).2.2.1,
   ((head_only_at_commit_C2
      ⟨⟨8, 3, 1, true⟩, List.replicate 8 0, 2, true⟩).2.2.2.1 rfl).2.2.2.1⟩

/-- C9: every `Producer` operation preserves the state invariant (counter
bounds, `head - tail` plus the open reservation bounded by the capacity,
and `txSize = 0` when idle); consequently the `size_t` computation of
`avail` in `accessContiguousInTx` equals the exact value
`C - (head - tail) - txSize`, which never underflows (it is non-negative
as an integer). -/
theorem inv_preservation_C9 (p : Producer) (h : p.Inv) :
    (p.startTx).2.Inv ∧ (p.commitTx).2.Inv ∧ (p.cancelTx).2.Inv ∧
    (∀ ap size, (p.accessContiguousInTx ap size).2.2.Inv) ∧
    (∀ ap buffer size, (p.writeInTx ap buffer size).2.Inv) ∧
    (∀ buffer size, (p.write buffer size).2.Inv) ∧
    availOf p.header.kDataPoolByteSize p.header.head p.header.tail p.tx_size
      = p.header.kDataPoolByteSize - usedOf p.header.head p.header.tail
        - p.tx_size ∧
    usedOf p.header.head p.header.tail + p.tx_size
      ≤ p.header.kDataPoolByteSize ∧
    0 ≤ (p.header.kDataPoolByteSize : Int)
      - (usedOf p.header.head p.header.tail : Int) - (p.tx_size : Int) := by
  obtain ⟨hh, ht, hpow, hC32, hinv, htx0⟩ := h
  refine ⟨inv_startTx p ⟨hh, ht, hpow, hC32, hinv, htx0⟩,
    inv_commitTx p ⟨hh, ht, hpow, hC32, hinv, htx0⟩,
    inv_cancelTx p ⟨hh, ht, hpow, hC32, hinv, htx0⟩,
    fun ap size => inv_access p ap size ⟨hh, ht, hpow, hC32, hinv, htx0⟩,
    fun ap buffer size =>
      inv_writeInTx p ap buffer size ⟨hh, ht, hpow, hC32, hinv, htx0⟩,
    fun buffer size => inv_write p buffer size ⟨hh, ht, hpow, hC32, hinv, htx0⟩,
    avail_eq _ _ _ _ hh ht hinv hC32, hinv, ?_⟩
  push_cast
  omega

/-- C9 witness: in the open state `C = 8`, `head = 3`, `tail = 1`,
`txSize = 2`, the `size_t` avail computation equals the exact value
`8 - 2 - 2 = 4`. -/
theorem inv_preservation_C9_witness :
    availOf 8 3 1 2 = 8 - usedOf 3 1 - 2 :=
  (inv_preservation_C9 ⟨⟨8, 3, 1, true⟩, List.replicate 8 0, 2, true⟩
    ⟨by decide, by decide, ⟨3, rfl⟩, by decide, by decide,
      fun hq => absurd hq (by decide)⟩).2.2.2.2.2.2.1

/-- C5: inside an open transaction with `avail = 5`, a strict request for 6
bytes fails with `InsufficientSpace` and leaves `txSize` unchanged, while
the same request with `allowPartial = true` succeeds: `writeInTx` returns
exactly 5 bytes written and `txSize` grows by exactly 5.  In general the
partial path reserves exactly `min(size, avail)` bytes whenever
`avail > 0`. -/
theorem truncated_write_C5 (p : Producer) (buffer : List Nat)
    (h : p.Inv) (htx : p.inTx = true) :
    (p.header.kDataPoolByteSize - usedOf p.header.head p.header.tail
        - p.tx_size = 5 →
      (p.writeInTx false buffer 6).1 = -ENOSPC ∧
      (p.writeInTx false buffer 6).2.tx_size = p.tx_size ∧
      (p.writeInTx true buffer 6).1 = 5 ∧
      (p.writeInTx true buffer 6).2.tx_size = p.tx_size + 5) ∧
    (∀ size : Nat, 0 < size →
      0 < p.header.kDataPoolByteSize - usedOf p.header.head p.header.tail
        - p.tx_size →
      (p.accessContiguousInTx true size).2.2.tx_size
        = p.tx_size + min size (p.header.kDataPoolByteSize
          - usedOf p.header.head p.header.tail - p.tx_size)) := by
  constructor
  · intro h5
    have hn := writeInTx_nospc p buffer 6 h htx (by omega)
    have hws := writeInTx_succ p true buffer 6 h htx (by norm_num)
      (by omega) (Or.inl rfl)
    have hmin : min 6 (p.header.kDataPoolByteSize
        - usedOf p.header.head p.header.tail - p.tx_size) = 5 := by
      rw [h5]
      decide
    rw [hmin] at hws
    exact ⟨by rw [hn], by rw [hn], by rw [hws.1]; norm_num, hws.2.1⟩
  · intro size hs0 hp0
    have hacc := access_succ p true size h htx hs0 hp0 (Or.inl rfl)
    rw [hacc]
    dsimp only
    split_ifs <;> rfl

/-- C5 witness: `C = 8`, `head = 2`, `tail = 1`, `txSize = 2` gives
`avail = 5`; a strict write of 6 bytes fails with `InsufficientSpace`, the
partial write returns 5 and `txSize` becomes 7. -/
theorem truncated_write_C5_witness :
    (Producer.writeInTx ⟨⟨8, 2, 1, true⟩, List.replicate 8 0, 2, true⟩
        false [1, 2, 3, 4, 5, 6] 6).1 = -ENOSPC ∧
    (Producer.writeInTx ⟨⟨8, 2, 1, true⟩, List.replicate 8 0, 2, true⟩
        true [1, 2, 3, 4, 5, 6] 6).1 = 5 ∧
    (Producer.writeInTx ⟨⟨8, 2, 1, true⟩, List.replicate 8 0, 2, true⟩
        true [1, 2, 3, 4, 5, 6] 6).2.tx_size = 7 :=
  have hc5 := (truncated_write_C5
    ⟨⟨8, 2, 1, true⟩, List.replicate 8 0, 2, true⟩ [1, 2, 3, 4, 5, 6]
    ⟨by decide, by decide, ⟨3, rfl⟩, by decide, by decide,
      fun hq => absurd hq (by decide)⟩ rfl).1 (by decide)
  ⟨hc5.1, hc5.2.2.1, hc5.2.2.2⟩

/-- C7: inside an open transaction, whenever a span acquisition goes through
(`size > 0`, `avail > 0`, and either `allowPartial` or `size ≤ avail`), the
result is one span `[start, start + sz)` when the reserved region does not
cross the physical end of the pool (`start < end`, or `end = 0`), and
otherwise exactly two spans `[start, C)` then `[0, end)` whose lengths sum
to the reserved size `sz = min(size, avail)`, the concatenation being the
logical write region in order. -/
theorem span_shape_C7 (p : Producer) (ap : Bool) (size : Nat) (h : p.Inv)
    (htx : p.inTx = true) (hsz : 0 < size)
    (hpos : 0 < p.header.kDataPoolByteSize
      - usedOf p.header.head p.header.tail - p.tx_size)
    (hgo : ap = true ∨ size ≤ p.header.kDataPoolByteSize
      - usedOf p.header.head p.header.tail - p.tx_size) :
    let C := p.header.kDataPoolByteSize
    let sz := min size (C - usedOf p.header.head p.header.tail - p.tx_size)
    let start := (p.header.head + p.tx_size) % U64 &&& p.header.kDataModMask
    let endPos := (start + sz) &&& p.header.kDataModMask
    ((start < endPos ∨ endPos = 0) →
      p.accessContiguousInTx ap size
        = (1, ([⟨start, sz⟩], { p with tx_size := p.tx_size + sz }))) ∧
    ((endPos ≤ start ∧ 0 < endPos) →
      p.accessContiguousInTx ap size
        = (2, ([⟨start, C - start⟩, ⟨0, endPos⟩],
            { p with tx_size := p.tx_size + sz }))
        ∧ (C - start) + endPos = sz ∧ start < C) := by
  obtain ⟨hh, ht, hpow, hC32, hinv, htx0⟩ := h
  have hacc := access_succ p ap size ⟨hh, ht, hpow, hC32, hinv, htx0⟩
    htx hsz hpos hgo
  dsimp only at hacc
  have hCpos : 0 < p.header.kDataPoolByteSize := by
    obtain ⟨k, hk⟩ := hpow
    rw [hk]
    exact Nat.pos_pow_of_pos k (by norm_num)
  have hmask2 : ∀ x : Nat, x &&& p.header.kDataModMask
      = x % p.header.kDataPoolByteSize := by
    intro x
    obtain ⟨k, hk⟩ := hpow
    unfold RingBufferHeader.kDataModMask
    rw [hk, Nat.and_pow_two_sub_one_eq_mod]
  have hdvd : p.header.kDataPoolByteSize ∣ U64 := by
    obtain ⟨k, hk⟩ := hpow
    have hk64 : k ≤ 64 := by
      by_contra hc
      push_neg at hc
      have : (2:Nat) ^ 65 ≤ 2 ^ k := Nat.pow_le_pow_right (by norm_num) hc
      rw [hk] at hC32
      unfold U32 at hC32
      omega
    have hu : U64 = 2 ^ 64 := by unfold U64; norm_num
    rw [hk, hu]
    exact pow_dvd_pow 2 hk64
  have hmm : (p.header.head + p.tx_size) % U64 % p.header.kDataPoolByteSize
      = (p.header.head + p.tx_size) % p.header.kDataPoolByteSize :=
    Nat.mod_mod_of_dvd _ hdvd
  dsimp only
  simp only [hmask2, hmm]
  refine ⟨fun hcond => ?_, fun hcond => ?_⟩
  · rw [hacc, if_neg (by omega)]
  · rw [hacc, if_pos hcond]
    have hstart : (p.header.head + p.tx_size) % p.header.kDataPoolByteSize
        < p.header.kDataPoolByteSize := Nat.mod_lt _ hCpos
    have hsum := wrap_sum p.header.kDataPoolByteSize
      ((p.header.head + p.tx_size) % p.header.kDataPoolByteSize)
      (min size (p.header.kDataPoolByteSize
        - usedOf p.header.head p.header.tail - p.tx_size))
      hstart (by omega) (by omega) hcond
    exact ⟨rfl, hsum.1, hstart⟩

/-- C7 witness: `C = 8`, `head = 6`, `tail = 2`, `txSize = 0`, request 4:
the region wraps, giving spans `(6,2)` then `(0,2)` summing to 4. -/
theorem span_shape_C7_witness :
    Producer.accessContiguousInTx
        ⟨⟨8, 6, 2, true⟩, List.replicate 8 0, 0, true⟩ true 4
      = (2, ([⟨6, 2⟩, ⟨0, 2⟩],
          ⟨⟨8, 6, 2, true⟩, List.replicate 8 0, 4, true⟩)) :=
  ((span_shape_C7 ⟨⟨8, 6, 2, true⟩, List.replicate 8 0, 0, true⟩ true 4
    ⟨by decide, by decide, ⟨3, rfl⟩, by decide, by decide,
      fun hq => absurd hq (by decide)⟩
    rfl (by decide) (by decide) (Or.inl rfl)).2 (by decide)).1

/-- C1: `write(buffer, size)` composes `startTx`, `writeInTx` with
`allowPartial = false`, and `commitTx`.  If it returns a non-negative value
that value is exactly `size` and no transaction is left open; if it returns
a negative error the state is exactly as before the call — in particular a
failure after a successful `startTx` has cancelled the transaction (no open
transaction, lock released) and `head` has not advanced, so no partial
record is ever published. -/
theorem write_all_or_nothing_C1 (p : Producer) (buffer : List Nat)
    (size : Nat) (h : p.Inv) :
    (0 ≤ (p.write buffer size).1 →
      (p.write buffer size).1 = (size : Int)
        ∧ (p.write buffer size).2.inTx = false) ∧
    ((p.write buffer size).1 < 0 → (p.write buffer size).2 = p) := by
  obtain ⟨hh, ht, hpow, hC32, hinv, htx0⟩ := h
  obtain ⟨⟨C, hd, tl, lk⟩, dat, tx, itx⟩ := p
  cases itx with
  | true =>
    have hstart : Producer.startTx ⟨⟨C, hd, tl, lk⟩, dat, tx, true⟩
        = (-EBUSY, ⟨⟨C, hd, tl, lk⟩, dat, tx, true⟩) := rfl
    unfold Producer.write
    rw [hstart]
    dsimp only
    rw [if_pos (by norm_num [EBUSY])]
    exact ⟨fun hge => absurd hge (by norm_num [EBUSY]), fun _ => rfl⟩
  | false =>
    have htx00 : tx = 0 := htx0 rfl
    subst htx00
    cases lk with
    | true =>
      have hstart : Producer.startTx ⟨⟨C, hd, tl, true⟩, dat, 0, false⟩
          = (-EAGAIN, ⟨⟨C, hd, tl, true⟩, dat, 0, false⟩) := rfl
      unfold Producer.write
      rw [hstart]
      dsimp only
      rw [if_pos (by norm_num [EAGAIN])]
      exact ⟨fun hge => absurd hge (by norm_num [EAGAIN]), fun _ => rfl⟩
    | false =>
      have hstart : Producer.startTx ⟨⟨C, hd, tl, false⟩, dat, 0, false⟩
          = (0, ⟨⟨C, hd, tl, true⟩, dat, 0, true⟩) := rfl
      have hInv1 : Producer.Inv ⟨⟨C, hd, tl, true⟩, dat, 0, true⟩ :=
        ⟨hh, ht, hpow, hC32, hinv, fun hq => Bool.noConfusion hq⟩
      unfold Producer.write
      rw [hstart]
      dsimp only
      rw [if_neg (by norm_num)]
      rcases Nat.eq_zero_or_pos size with hs0 | hs0
      · subst hs0
        have hw0 : Producer.writeInTx ⟨⟨C, hd, tl, true⟩, dat, 0, true⟩
            false buffer 0 = (0, ⟨⟨C, hd, tl, true⟩, dat, 0, true⟩) := rfl
        rw [hw0]
        dsimp only
        rw [if_neg (by norm_num)]
        have hcom : Producer.commitTx ⟨⟨C, hd, tl, true⟩, dat, 0, true⟩
            = (0, ⟨⟨C, (hd + 0) % U64, tl, false⟩, dat, 0, false⟩) := rfl
        rw [hcom]
        exact ⟨fun _ => ⟨rfl, rfl⟩, fun hlt => absurd hlt (by norm_num)⟩
      · by_cases hle : size ≤ C - usedOf hd tl - 0
        · have hws := writeInTx_succ ⟨⟨C, hd, tl, true⟩, dat, 0, true⟩
            false buffer size hInv1 rfl hs0
            (show 0 < C - usedOf hd tl - 0 by omega)
            (Or.inr (show size ≤ C - usedOf hd tl - 0 from hle))
          obtain ⟨hr, htxs, hhd, hitx⟩ := hws
          have hmin : min size (C - usedOf hd tl - 0) = size :=
            Nat.min_eq_left hle
          rw [hmin] at hr
          rw [if_neg (by rw [hr]; omega)]
          have hcom2 : (Producer.writeInTx ⟨⟨C, hd, tl, true⟩, dat, 0, true⟩
              false buffer size).2.commitTx
              = (0, { (Producer.writeInTx ⟨⟨C, hd, tl, true⟩, dat, 0, true⟩
                  false buffer size).2 with
                header := ((Producer.writeInTx
                    ⟨⟨C, hd, tl, true⟩, dat, 0, true⟩ false buffer
                    size).2.header.incHead
                  (Producer.writeInTx ⟨⟨C, hd, tl, true⟩, dat, 0, true⟩
                    false buffer size).2.tx_size).endWriteTransaction,
                tx_size := 0, inTx := false }) := by
            unfold Producer.commitTx
            rw [if_neg (by simp [hitx])]
          rw [hcom2]
          dsimp only
          refine ⟨fun _ => ⟨rfl, rfl⟩, fun hlt => ?_⟩
          exfalso
          omega
        · push_neg at hle
          have hn := writeInTx_nospc ⟨⟨C, hd, tl, true⟩, dat, 0, true⟩
            buffer size hInv1 rfl
            (show C - usedOf hd tl - 0 < size from hle)
          rw [hn]
          dsimp only
          rw [if_pos (by norm_num [ENOSPC])]
          have hcan : Producer.cancelTx ⟨⟨C, hd, tl, true⟩, dat, 0, true⟩
              = (0, ⟨⟨C, hd, tl, false⟩, dat, 0, false⟩) := rfl
          rw [hcan]
          exact ⟨fun hge => absurd hge (by norm_num [ENOSPC]), fun _ => rfl⟩

/-- C1 witness: on a fresh ring buffer with `C = 8`, a `write` of 3 bytes
returns 3 and leaves no open transaction. -/
theorem write_all_or_nothing_C1_witness :
    (Producer.write ⟨⟨8, 0, 0, false⟩, List.replicate 8 0, 0, false⟩
        [65, 66, 67] 3).1 = 3 ∧
    (Producer.write ⟨⟨8, 0, 0, false⟩, List.replicate 8 0, 0, false⟩
        [65, 66, 67] 3).2.inTx = false :=
  (write_all_or_nothing_C1 ⟨⟨8, 0, 0, false⟩, List.replicate 8 0, 0, false⟩
    [65, 66, 67] 3
    ⟨by decide, by decide, ⟨3, rfl⟩, by decide, by decide, fun _ => rfl⟩).1
    (by decide)

end Tensorpipe
